import Mathlib

/-!
Verification of the ganttinator repository core: task model, date
normalizer, grouping engine, configuration synthesizer/reader and the
PlantUML diagram generator.  Every definition is a shallow embedding of
the corresponding Python function under `src/ganttinator/`; machine
strings are Lean `String`s (lists of characters, compared by code point
exactly as Python compares `str` values), Python `dict`s are association
lists in insertion order, and fallible operations return `Option`.
-/

namespace Ganttinator

/-! ## Python string primitives

Python compares strings lexicographically by code point.  Lean's builtin
`String` order is not kernel-reducible, so the comparison is modelled
directly on the character lists. -/

def charListLt : List Char → List Char → Bool
  | [], [] => false
  | [], _ :: _ => true
  | _ :: _, [] => false
  | a :: as, b :: bs => a.toNat < b.toNat || (a.toNat == b.toNat && charListLt as bs)

/-- Python `a < b` on strings: lexicographic comparison by code point. -/
def strLtB (a b : String) : Bool := charListLt a.data b.data

/-- Python `a <= b` on strings (total order, so `a <= b` iff `¬ b < a`). -/
def strLeB (a b : String) : Bool := !(strLtB b a)

def strLe (a b : String) : Prop := strLeB a b = true

instance : DecidableRel strLe := fun a b => by unfold strLe; infer_instance

/-- Whitespace characters stripped by Python `str.strip()` (the ASCII
whitespace set; the claims only exercise ASCII input). -/
def isPySpace (c : Char) : Bool :=
  c = ' ' || c = '\t' || c = '\n' || c = '\r' || c = '\x0b' || c = '\x0c'

def pyStripList (cs : List Char) : List Char :=
  ((cs.dropWhile isPySpace).reverse.dropWhile isPySpace).reverse

/-- Python `str.strip()`. -/
def pyStrip (s : String) : String := ⟨pyStripList s.data⟩

/-- Python `str.split(sep)` for a one-character separator: `"".split(",") = [""]`. -/
def splitOnChar (sep : Char) : List Char → List (List Char)
  | [] => [[]]
  | c :: rest =>
    let r := splitOnChar sep rest
    if c = sep then [] :: r
    else
      match r with
      | [] => [[c]]
      | h :: t => (c :: h) :: t

/-- Python `s[n:]` slicing on strings. -/
def pyDrop (s : String) (n : Nat) : String := ⟨s.data.drop n⟩

/-- Python `s[:n]` slicing on strings. -/
def pyTake (s : String) (n : Nat) : String := ⟨s.data.take n⟩

/-- Python `s.startswith(pre)`. -/
def pyStartswith (s pre : String) : Bool := s.data.take pre.data.length == pre.data

/-- Lowercasing of an ASCII letter (Python `str.lower()`; the configured
weekday/month texts in scope are ASCII). -/
def toLowerChar (c : Char) : Char :=
  if 65 ≤ c.toNat ∧ c.toNat ≤ 90 then Char.ofNat (c.toNat + 32) else c

/-- Python `str.lower()`. -/
def pyLower (s : String) : String := ⟨s.data.map toLowerChar⟩

/-- Python `min(list)` (first element wins ties; `None` on the empty list,
which the sources guard with an emptiness check). -/
def pyMin (l : List String) : Option String :=
  match l with
  | [] => none
  | a :: rest => some (rest.foldl (fun acc x => if strLtB x acc then x else acc) a)

/-- Python `dict` lookup `d.get(k)` over an insertion-ordered association list. -/
def lookup? {α : Type} : List (String × α) → String → Option α
  | [], _ => none
  | (k', v') :: rest, k => if k' = k then some v' else lookup? rest k

/-- Python `dict.get(k, default)`. -/
def lookupD {α : Type} (l : List (String × α)) (k : String) (d : α) : α :=
  (lookup? l k).getD d

/-- Python `d[k] = v` on a `dict`: updates in place if the key exists,
appends otherwise (insertion order is preserved). -/
def assocInsert {α : Type} : List (String × α) → String → α → List (String × α)
  | [], k, v => [(k, v)]
  | (k', v') :: rest, k, v =>
    if k' = k then (k', v) :: rest else (k', v') :: assocInsert rest k v

/-! ## Task model (`task.py`, duplicated in `main.py`) -/

structure Task where
  title : String
  url : String
  assignees : String
  start_date : String
  end_date : String
  milestone : String
deriving DecidableEq, Repr

/-- `Task.get_assignee_list`: trim, split on comma, drop empties,
order-preserving. -/
def Task.get_assignee_list (t : Task) : List String :=
  if t.assignees = "" then []
  else
    ((splitOnChar ',' t.assignees.data).map
      (fun cs => (⟨pyStripList cs⟩ : String))).filter (fun a => a ≠ "")

/-- `Task.get_assignee_tuple`: `tuple(sorted(self.get_assignee_list()))`.
Python's sort is stable and ascending; `insertionSort` matches it. -/
def Task.get_assignee_tuple (t : Task) : List String :=
  t.get_assignee_list.insertionSort strLe

/-! ## Date normalizer (`utils.py:parse_date`, duplicated in `main.py`)

`datetime.strptime` is embedded following CPython's `_strptime` regexes:
`%Y` is exactly four digits, `%m` and `%d` are one or two digits in range,
month names match case-insensitively, literal whitespace in the format
matches a non-empty whitespace run, and the whole string must be consumed.
`strftime("%Y-%m-%d")` is embedded with the documented zero padding
(`%Y` four digits, `%m`/`%d` two digits).  Digits are modelled as ASCII. -/

def isAsciiDigit (c : Char) : Bool := 48 ≤ c.toNat ∧ c.toNat ≤ 57

def isAsciiAlpha (c : Char) : Bool :=
  (97 ≤ c.toNat ∧ c.toNat ≤ 122) ∨ (65 ≤ c.toNat ∧ c.toNat ≤ 90)

/-- Numeric value of a digit string (most significant first). -/
def digitsVal (cs : List Char) : Nat :=
  cs.foldl (fun a c => a * 10 + (c.toNat - 48)) 0

def digitChar (n : Nat) : Char := Char.ofNat (48 + n)

/-- `strftime` two-digit zero-padded field (`%m`, `%d`). -/
def pad2 (n : Nat) : String := ⟨[digitChar (n / 10 % 10), digitChar (n % 10)]⟩

/-- `strftime` four-digit zero-padded year (`%Y`). -/
def pad4 (n : Nat) : String :=
  ⟨[digitChar (n / 1000 % 10), digitChar (n / 100 % 10),
    digitChar (n / 10 % 10), digitChar (n % 10)]⟩

/-- `dt.strftime("%Y-%m-%d")`. -/
def formatYmd (y m d : Nat) : String := pad4 y ++ "-" ++ pad2 m ++ "-" ++ pad2 d

def isLeapYear (y : Nat) : Bool := y % 4 == 0 && (y % 100 != 0 || y % 400 == 0)

def daysInMonth (y m : Nat) : Nat :=
  if m = 2 then (if isLeapYear y then 29 else 28)
  else if m = 4 ∨ m = 6 ∨ m = 9 ∨ m = 11 then 30
  else 31

/-- The `datetime` constructor's validity check (`MINYEAR = 1`,
`MAXYEAR = 9999`, real calendar month lengths). -/
def validYMD (y m d : Nat) : Bool :=
  1 ≤ y && y ≤ 9999 && 1 ≤ m && m ≤ 12 && 1 ≤ d && d ≤ daysInMonth y m

/-- `strptime(s, "%Y-%m-%d")`: four year digits, a hyphen, one or two
month digits, a hyphen, one or two day digits, end of input, then the
`datetime` constructor check. -/
def parseYmdChars (cs : List Char) : Option (Nat × Nat × Nat) :=
  let ys := cs.takeWhile isAsciiDigit
  match cs.dropWhile isAsciiDigit with
  | '-' :: r2 =>
    let ms := r2.takeWhile isAsciiDigit
    match r2.dropWhile isAsciiDigit with
    | '-' :: r4 =>
      let ds := r4.takeWhile isAsciiDigit
      let r5 := r4.dropWhile isAsciiDigit
      if r5 = [] ∧ ys.length = 4 ∧ 1 ≤ ms.length ∧ ms.length ≤ 2
          ∧ 1 ≤ ds.length ∧ ds.length ≤ 2 then
        let y := digitsVal ys
        let m := digitsVal ms
        let d := digitsVal ds
        if (1 ≤ m ∧ m ≤ 12 ∧ 1 ≤ d ∧ d ≤ 31) ∧ validYMD y m d = true then
          some (y, m, d)
        else none
      else none
    | _ => none
  | _ => none

def monthAbbrevNames : List String :=
  ["jan", "feb", "mar", "apr", "may", "jun",
   "jul", "aug", "sep", "oct", "nov", "dec"]

def monthFullNames : List String :=
  ["january", "february", "march", "april", "may", "june",
   "july", "august", "september", "october", "november", "december"]

/-- One-based position of a lowercased month token in a name table. -/
def monthIndex (token : List Char) : List String → Option Nat
  | [] => none
  | n :: rest =>
    if token = n.data then some 1
    else (monthIndex token rest).map (· + 1)

/-- `strptime(s, "%b %d, %Y")` / `strptime(s, "%B %d, %Y")`: a month name
(case-insensitive), whitespace, one or two day digits, a comma,
whitespace, four year digits, end of input, then the `datetime` check. -/
def parseMonthNameChars (names : List String) (cs : List Char) : Option (Nat × Nat × Nat) :=
  let mon := cs.takeWhile isAsciiAlpha
  match monthIndex (mon.map toLowerChar) names with
  | none => none
  | some m =>
    let r1 := cs.dropWhile isAsciiAlpha
    if r1.takeWhile isPySpace = [] then none
    else
      let r2 := r1.dropWhile isPySpace
      let ds := r2.takeWhile isAsciiDigit
      match r2.dropWhile isAsciiDigit with
      | ',' :: r4 =>
        if r4.takeWhile isPySpace = [] then none
        else
          let r5 := r4.dropWhile isPySpace
          let ys := r5.takeWhile isAsciiDigit
          let r6 := r5.dropWhile isAsciiDigit
          if r6 = [] ∧ ys.length = 4 ∧ 1 ≤ ds.length ∧ ds.length ≤ 2 then
            let y := digitsVal ys
            let d := digitsVal ds
            if (1 ≤ d ∧ d ≤ 31) ∧ validYMD y m d = true then
              some (y, m, d)
            else none
          else none
      | _ => none

/-- `utils.parse_date`: canonical `YYYY-MM-DD` first, then `"Mon D, YYYY"`,
then `"Month D, YYYY"`; `None` for anything else, including empty input. -/
def parse_date (s : String) : Option String :=
  if s = "" then none
  else
    let cs := pyStripList s.data
    match parseYmdChars cs with
    | some (y, m, d) => some (formatYmd y m d)
    | none =>
      match parseMonthNameChars monthAbbrevNames cs with
      | some (y, m, d) => some (formatYmd y m d)
      | none =>
        match parseMonthNameChars monthFullNames cs with
        | some (y, m, d) => some (formatYmd y m d)
        | none => none

example : parse_date ("2026-01-08") = some ("2026-01-08") := by decide
example : parse_date ("Jan 8, 2026") = some ("2026-01-08") := by decide
example : parse_date ("January 8, 2026") = some ("2026-01-08") := by decide
example : parse_date ("not a date") = none := by decide
example : parse_date ("2026-2-30") = none := by decide
example : parse_date ("2024-2-29") = some ("2024-02-29") := by decide

/-! ## Grouping engine (`main.py`) -/

/-- `COLOR_PALETTE` from `main.py`. -/
def COLOR_PALETTE : List String :=
  ["LightBlue", "LightGreen", "LightCoral", "LightGoldenRodYellow",
   "LightPink", "LightSalmon", "LightSeaGreen", "LightSkyBlue",
   "LightSteelBlue", "PaleGreen", "PaleTurquoise", "PeachPuff",
   "Plum", "PowderBlue", "Thistle"]

/-- The number of tasks that increment the `Counter` entry of the tuple
`g` in `detect_assignee_groups` (only tasks with a multi-assignee tuple
are counted). -/
def tupleCount (tasks : List Task) (g : List String) : Nat :=
  (tasks.filter (fun t =>
    decide (1 < t.get_assignee_tuple.length) && decide (t.get_assignee_tuple = g))).length

/-- The loop of `detect_assignee_groups` that inserts each first-seen
multi-assignee tuple as a new `Counter` key. -/
def counterKeysAux : List Task → List (List String) → List (List String)
  | [], acc => acc
  | t :: rest, acc =>
    let tup := t.get_assignee_tuple
    counterKeysAux rest (if 1 < tup.length ∧ tup ∉ acc then acc ++ [tup] else acc)

/-- The `Counter`'s keys in insertion order: the first-seen order of
multi-assignee tuples across the task list. -/
def counterKeys (tasks : List Task) : List (List String) :=
  counterKeysAux tasks []

/-- The ordering used by `frequent_groups.sort(key=..., reverse=True)`:
`g1` may precede `g2` iff the key `(count, size)` of `g2` is
lexicographically at most that of `g1` (descending sort). -/
def groupSortKeyLe (tasks : List Task) (g1 g2 : List String) : Prop :=
  tupleCount tasks g2 < tupleCount tasks g1 ∨
    (tupleCount tasks g2 = tupleCount tasks g1 ∧ g2.length ≤ g1.length)

instance (tasks : List Task) : DecidableRel (groupSortKeyLe tasks) := fun a b => by
  unfold groupSortKeyLe; infer_instance

/-- `main.py:detect_assignee_groups`: count multi-assignee tuples, retain
those with count at least `minOcc`, stable-sort by
`(count descending, size descending)`. -/
def detect_assignee_groups (tasks : List Task) (minOcc : Nat) : List (List String) :=
  let frequent := (counterKeys tasks).filter (fun g => decide (minOcc ≤ tupleCount tasks g))
  frequent.insertionSort (groupSortKeyLe tasks)

/-- A `{name, display_name, color}` record in `colors.persons`. -/
structure PersonRec where
  name : String
  display_name : String
  color : String
deriving DecidableEq, Repr

/-- A `{uuid, name, members, color}` record in `groups`. -/
structure GroupRec where
  uuid : String
  name : String
  members : List String
  color : String
deriving DecidableEq, Repr

/-- Python `" & ".join(group)`. -/
def joinAmp : List String → String
  | [] => ""
  | [a] => a
  | a :: rest => a ++ " & " ++ joinAmp rest

/-- The individual-assignee loop of `assign_colors`: consumes palette
entries while the shared index is in range, otherwise falls back to
`"LightGray"` without advancing the index.  Returns the records and the
final shared index. -/
def assignPersonsAux : List String → Nat → List PersonRec × Nat
  | [], i => ([], i)
  | a :: rest, i =>
    let p := if i < COLOR_PALETTE.length then (COLOR_PALETTE.getD i "", i + 1)
             else ("LightGray", i)
    let r := assignPersonsAux rest p.2
    (⟨a, "", p.1⟩ :: r.1, r.2)

/-- The group loop of `assign_colors`: continues from the shared index and
leaves the color empty once the palette is exhausted.  `uuids k` stands
for the `uuid.uuid4()` drawn for the `k`-th group. -/
def assignGroupsAux (uuids : Nat → String) : List (List String) → Nat → Nat → List GroupRec
  | [], _, _ => []
  | g :: rest, i, k =>
    let p := if i < COLOR_PALETTE.length then (COLOR_PALETTE.getD i "", i + 1)
             else ("", i)
    ⟨uuids k, joinAmp g, g, p.1⟩ :: assignGroupsAux uuids rest p.2 (k + 1)

/-- `main.py:assign_colors`.  The source receives the assignees as a
`set`; `dedup` models the set construction and `insertionSort strLe`
models the `sorted(...)` iteration. -/
def assign_colors (assignees : List String) (groups : List (List String))
    (uuids : Nat → String) : List PersonRec × List GroupRec :=
  let sortedAssignees := assignees.dedup.insertionSort strLe
  let pr := assignPersonsAux sortedAssignees 0
  (pr.1, assignGroupsAux uuids groups pr.2 0)

/-! ## Finding the earliest task date (`utils.py:find_earliest_task_date`) -/

/-- The loop of `find_earliest_task_date`: appends each task's start
date then end date to the accumulator, when present. -/
def taskDatesAux : List Task → List String → List String
  | [], acc => acc
  | t :: rest, acc =>
    taskDatesAux rest
      ((acc ++ (if t.start_date ≠ "" then [t.start_date] else []))
        ++ (if t.end_date ≠ "" then [t.end_date] else []))

/-- The `dates` list built by `find_earliest_task_date`: for each task in
order, its start date then its end date, when present. -/
def taskDates (tasks : List Task) : List String :=
  taskDatesAux tasks []

/-- `utils.py:find_earliest_task_date`: `min(dates) if dates else None`. -/
def find_earliest_task_date (tasks : List Task) : Option String :=
  pyMin (taskDates tasks)

/-! ## Configuration document (`config.py`, duplicated in `main.py`) -/

structure ProjectCfg where
  start_date : String
  header : String
  footer : String
deriving DecidableEq, Repr

structure ClosedDaysCfg where
  weekdays : List String
  dates : List String
  date_ranges : List (List String)
deriving DecidableEq, Repr

structure LegendCfg where
  enabled : Bool
  title : String
  items : List (String × String)
deriving DecidableEq, Repr

/-- The two accepted shapes of `colors.persons`: the legacy flat
name-to-color mapping, or the current list of records. -/
inductive PersonsCfg where
  | legacy (colors : List (String × String))
  | records (entries : List PersonRec)
deriving DecidableEq, Repr

structure Config where
  project : ProjectCfg
  closed_days : ClosedDaysCfg
  milestones : List (String × String)
  persons : PersonsCfg
  groups : List GroupRec
  legend : LegendCfg
  tasks : List Task
deriving DecidableEq, Repr

/-- `config.py:create_toml_config`. -/
def create_toml_config (tasks : List Task) (project_start_date : Option String)
    (milestone_dates : List (String × String)) (persons_with_colors : List PersonRec)
    (groups_with_colors : List GroupRec) (header footer legend_title : String) : Config :=
  { project := ⟨(match project_start_date with | some s => s | none => ""), header, footer⟩
    closed_days := ⟨["saturday", "sunday"], [], []⟩
    milestones := milestone_dates
    persons := .records persons_with_colors
    groups := groups_with_colors
    legend := ⟨true, legend_title,
      groups_with_colors.map (fun g => ("group:" ++ g.uuid, g.color))
        ++ persons_with_colors.map (fun p => ("person:" ++ p.name, p.color))⟩
    tasks := tasks }

/-- `config.py:load_persons_from_config`: returns the name-to-color and
name-to-display-name mappings, accepting both persons shapes; records
with an empty name are skipped, and empty colors or display names are
simply not inserted. -/
def loadPersonsAux :
    List PersonRec → List (String × String) × List (String × String)
      → List (String × String) × List (String × String)
  | [], acc => acc
  | p :: rest, acc =>
    loadPersonsAux rest
      (if p.name ≠ "" then
        ((if p.color ≠ "" then assocInsert acc.1 p.name p.color else acc.1),
         (if p.display_name ≠ "" then assocInsert acc.2 p.name p.display_name else acc.2))
      else acc)

def load_persons_from_config (cfg : Config) :
    List (String × String) × List (String × String) :=
  match cfg.persons with
  | .legacy m => (m, [])
  | .records entries => loadPersonsAux entries ([], [])

/-- `config.py:load_groups_from_config`: returns the name-to-members,
name-to-color and uuid-to-name mappings; entries missing a name or with
empty members are skipped. -/
def loadGroupsAux :
    List GroupRec
      → List (String × List String) × List (String × String) × List (String × String)
      → List (String × List String) × List (String × String) × List (String × String)
  | [], acc => acc
  | g :: rest, acc =>
    loadGroupsAux rest
      (if g.name ≠ "" ∧ g.members ≠ [] then
        (assocInsert acc.1 g.name g.members,
         (if g.color ≠ "" then assocInsert acc.2.1 g.name g.color else acc.2.1),
         (if g.uuid ≠ "" then assocInsert acc.2.2 g.uuid g.name else acc.2.2))
      else acc)

def load_groups_from_config (cfg : Config) :
    List (String × List String) × List (String × String) × List (String × String) :=
  loadGroupsAux cfg.groups ([], [], [])

/-- `config.py:load_closed_days_from_config`: weekday list as stored,
explicit dates as stored, and only the exactly-two-element date ranges. -/
def load_closed_days_from_config (cfg : Config) :
    List String × List String × List (String × String) :=
  (cfg.closed_days.weekdays, cfg.closed_days.dates,
   cfg.closed_days.date_ranges.filterMap (fun r =>
     match r with
     | [a, b] => some (a, b)
     | _ => none))

/-! ## Task color resolution (`generate.py:get_task_color`, duplicated in
`main.py`) -/

/-- Python `set(a) == set(b)` on string lists. -/
def pySetEq (a b : List String) : Bool :=
  a.all (fun x => b.contains x) && b.all (fun x => a.contains x)

/-- `get_task_color`: no assignees means no color; the first group (in
stored order) whose member set equals the assignee set decides via
`group_colors.get(name)`; otherwise the first assignee's configured
color, if any. -/
def get_task_color (task : Task) (person_colors : List (String × String))
    (group_colors : List (String × String))
    (groups_dict : List (String × List String)) : Option String :=
  let assignees := task.get_assignee_list
  if assignees = [] then none
  else
    match groups_dict.find? (fun g => pySetEq assignees g.2) with
    | some g => lookup? group_colors g.1
    | none =>
      match assignees with
      | [] => none
      | a0 :: _ => lookup? person_colors a0

/-! ## Diagram generator (`generate.py:generate_plantuml`)

The Python function appends to a single `lines` list from top to bottom;
each block of appends is embedded as one section and the function is the
concatenation of the sections, joined with newlines at the end. -/

/-- `escape_plantuml_text`: replace literal square brackets with
parentheses. -/
def escape_plantuml_text (text : String) : String :=
  ⟨text.data.map (fun c => if c = '[' then '(' else if c = ']' then ')' else c)⟩

def titleSection (cfg : Config) : List String :=
  if cfg.project.header ≠ "" then
    ["title " ++ escape_plantuml_text cfg.project.header, ""]
  else []

/-- The milestone date values that are non-empty
(`[d for d in milestone_dates.values() if d]`). -/
def milestoneDatesOnly (cfg : Config) : List String :=
  (cfg.milestones.map (fun p => p.2)).filter (fun d => d ≠ "")

/-- The start-date block of `generate_plantuml`: the explicit configured
start date, else the earliest task date, else the earliest milestone
date, else nothing. -/
def startDateSection (tasks : List Task) (cfg : Config) : List String :=
  if cfg.project.start_date ≠ "" then
    ["Project starts " ++ cfg.project.start_date, ""]
  else
    let earliest :=
      match find_earliest_task_date tasks with
      | some d => some d
      | none => pyMin (milestoneDatesOnly cfg)
    match earliest with
    | some d => ["Project starts " ++ d, ""]
    | none => []

def weekdayNames : List String :=
  ["monday", "tuesday", "wednesday", "thursday", "friday", "saturday", "sunday"]

def closedWeekdaysSection (cfg : Config) : List String :=
  (load_closed_days_from_config cfg).1.flatMap (fun w =>
    if w ≠ "" then
      let wl := pyStrip (pyLower w)
      if wl ∈ weekdayNames then [wl ++ " are closed"] else []
    else [])

def closedDatesSection (cfg : Config) : List String :=
  let cd := load_closed_days_from_config cfg
  cd.2.1.flatMap (fun d => if d ≠ "" then [d ++ " is closed"] else [])
    ++ cd.2.2.flatMap (fun r =>
        if r.1 ≠ "" ∧ r.2 ≠ "" then [r.1 ++ " to " ++ r.2 ++ " is closed"] else [])
    ++ (if cd.2.1 ≠ [] ∨ cd.2.2 ≠ [] then [""] else [])

/-- One legend row (`generate.py` lines 98-111): a `"group:<id>"`
reference resolves through the uuid-to-name map with an
`"Unknown Group (<first 8 characters of the id>)"` placeholder; a
`"person:<name>"` reference resolves through the display-name map with
the raw name as default; anything else is rendered as-is. -/
def legendItemLine (uuid_to_name person_display_names : List (String × String))
    (item_ref item_color : String) : String :=
  if pyStartswith item_ref "group:" then
    let group_uuid := pyDrop item_ref 6
    let group_name :=
      lookupD uuid_to_name group_uuid ("Unknown Group (" ++ pyTake group_uuid 8 ++ ")")
    "|<back:" ++ item_color ++ ">    </back>| " ++ escape_plantuml_text group_name ++ " |"
  else if pyStartswith item_ref "person:" then
    let person_name := pyDrop item_ref 7
    let display_name := lookupD person_display_names person_name person_name
    "|<back:" ++ item_color ++ ">    </back>| " ++ escape_plantuml_text display_name ++ " |"
  else
    "|<back:" ++ item_color ++ ">    </back>| " ++ escape_plantuml_text item_ref ++ " |"

def legendSection (cfg : Config) : List String :=
  if cfg.legend.enabled then
    ["legend"]
      ++ (if cfg.legend.title ≠ "" then
            ["<b>" ++ escape_plantuml_text cfg.legend.title ++ "</b>"] else [])
      ++ cfg.legend.items.map (fun it =>
            legendItemLine (load_groups_from_config cfg).2.2
              (load_persons_from_config cfg).2 it.1 it.2)
      ++ ["endlegend", ""]
  else []

/-- `milestones_with_dates` in insertion order. -/
def milestonesWithDates (cfg : Config) : List (String × String) :=
  cfg.milestones.filter (fun p => p.2 ≠ "")

def msDateLe (a b : String × String) : Prop := strLe a.2 b.2

instance : DecidableRel msDateLe := fun a b => by unfold msDateLe; infer_instance

/-- `sorted(milestones_with_dates.items(), key=lambda x: x[1])` (stable). -/
def sortedMilestones (cfg : Config) : List (String × String) :=
  (milestonesWithDates cfg).insertionSort msDateLe

def milestoneDeclSection (cfg : Config) : List String :=
  (sortedMilestones cfg).flatMap (fun p =>
    ["[" ++ escape_plantuml_text p.1 ++ "] happens at " ++ p.2,
     "Separator just at [" ++ escape_plantuml_text p.1 ++ "]\x27s end"])
    ++ (if sortedMilestones cfg ≠ [] then [""] else [])
    ++ (if sortedMilestones cfg ≠ [] then [""] else [])

/-- The keys of `tasks_by_milestone` in insertion order: the milestones
first seen on tasks that have one. -/
def tasksByMilestoneKeys (tasks : List Task) : List String :=
  tasks.foldl (fun acc t =>
    if t.milestone ≠ "" ∧ t.milestone ∉ acc then acc ++ [t.milestone] else acc) []

/-- `tasks_by_milestone[m]`: the tasks carrying milestone `m`, in
original task-list order. -/
def tasksForMilestone (tasks : List Task) (m : String) : List Task :=
  tasks.filter (fun t => t.milestone = m)

def tasks_without_milestone (tasks : List Task) : List Task :=
  tasks.filter (fun t => t.milestone = "")

/-- Per-task lines of the dated-milestone pass (`generate.py` lines
155-175).  When both dates are absent the source only emits a log
warning (guarded by `milestone in milestones_with_dates`); no diagram
line is produced for the task's timing. -/
def datedPassTaskLines (person_colors group_colors : List (String × String))
    (groups_dict : List (String × List String)) (task : Task) : List String :=
  let safe := escape_plantuml_text task.title
  (if task.start_date ≠ "" then ["[" ++ safe ++ "] starts " ++ task.start_date] else [])
    ++ (if task.end_date ≠ "" then ["[" ++ safe ++ "] ends " ++ task.end_date]
        else if task.start_date ≠ "" then ["[" ++ safe ++ "] lasts 1 days"] else [])
    ++ (match get_task_color task person_colors group_colors groups_dict with
        | some c => ["[" ++ safe ++ "] is colored in " ++ c]
        | none => [])

/-- The same block as implemented by the `main.py` copy of
`generate_plantuml` (lines 641-660), which does fall back to the
milestone's own date when both task dates are absent. -/
def datedPassTaskLinesMainPy (mwd : List (String × String)) (milestone : String)
    (person_colors group_colors : List (String × String))
    (groups_dict : List (String × List String)) (task : Task) : List String :=
  let safe := escape_plantuml_text task.title
  (if task.start_date ≠ "" then ["[" ++ safe ++ "] starts " ++ task.start_date] else [])
    ++ (if task.end_date ≠ "" then ["[" ++ safe ++ "] ends " ++ task.end_date]
        else if task.start_date ≠ "" then ["[" ++ safe ++ "] lasts 1 days"] else [])
    ++ (if task.start_date = "" ∧ task.end_date = "" then
          match lookup? mwd milestone with
          | some d => ["[" ++ safe ++ "] happens at " ++ d]
          | none => []
        else [])
    ++ (match get_task_color task person_colors group_colors groups_dict with
        | some c => ["[" ++ safe ++ "] is colored in " ++ c]
        | none => [])

def datedMilestonePass (tasks : List Task) (cfg : Config) : List String :=
  let pc := (load_persons_from_config cfg).1
  let gl := load_groups_from_config cfg
  (sortedMilestones cfg).flatMap (fun p =>
    if p.1 ∈ tasksByMilestoneKeys tasks then
      ["-- " ++ escape_plantuml_text p.1 ++ " --"]
        ++ (tasksForMilestone tasks p.1).flatMap (datedPassTaskLines pc gl.2.1 gl.1)
        ++ [""]
    else [])

/-- Per-task lines of the dateless-milestone pass and of the
"Other Tasks" section (the two source blocks are identical): no
fallback at all when both dates are absent. -/
def undatedPassTaskLines (person_colors group_colors : List (String × String))
    (groups_dict : List (String × List String)) (task : Task) : List String :=
  let safe := escape_plantuml_text task.title
  (if task.start_date ≠ "" then ["[" ++ safe ++ "] starts " ++ task.start_date] else [])
    ++ (if task.end_date ≠ "" then ["[" ++ safe ++ "] ends " ++ task.end_date]
        else if task.start_date ≠ "" then ["[" ++ safe ++ "] lasts 1 days"] else [])
    ++ (match get_task_color task person_colors group_colors groups_dict with
        | some c => ["[" ++ safe ++ "] is colored in " ++ c]
        | none => [])

def undatedMilestonePass (tasks : List Task) (cfg : Config) : List String :=
  let pc := (load_persons_from_config cfg).1
  let gl := load_groups_from_config cfg
  (tasksByMilestoneKeys tasks).flatMap (fun m =>
    if m ∉ (milestonesWithDates cfg).map (fun p => p.1) then
      ["-- " ++ escape_plantuml_text m ++ " --"]
        ++ (tasksForMilestone tasks m).flatMap (undatedPassTaskLines pc gl.2.1 gl.1)
        ++ [""]
    else [])

def otherTasksSection (tasks : List Task) (cfg : Config) : List String :=
  let pc := (load_persons_from_config cfg).1
  let gl := load_groups_from_config cfg
  if tasks_without_milestone tasks ≠ [] then
    ["-- Other Tasks --"]
      ++ (tasks_without_milestone tasks).flatMap (undatedPassTaskLines pc gl.2.1 gl.1)
      ++ [""]
  else []

def footerSection (cfg : Config) : List String :=
  if cfg.project.footer ≠ "" then
    ["footer " ++ escape_plantuml_text cfg.project.footer, ""]
  else []

/-- `generate.py:generate_plantuml` as the ordered list of emitted lines. -/
def generate_plantuml (tasks : List Task) (cfg : Config) : List String :=
  ["@startgantt"]
    ++ titleSection cfg
    ++ startDateSection tasks cfg
    ++ ["printscale daily"]
    ++ closedWeekdaysSection cfg
    ++ [""]
    ++ closedDatesSection cfg
    ++ legendSection cfg
    ++ milestoneDeclSection cfg
    ++ datedMilestonePass tasks cfg
    ++ undatedMilestonePass tasks cfg
    ++ otherTasksSection tasks cfg
    ++ footerSection cfg
    ++ ["@endgantt"]

/-- The returned diagram text: `"\n".join(lines)`. -/
def generate_plantuml_text (tasks : List Task) (cfg : Config) : String :=
  String.intercalate "\n" (generate_plantuml tasks cfg)

/-! ## Order theory of the code-point string comparison -/

theorem charListLt_irrefl (l : List Char) : charListLt l l = false := by
  induction l with
  | nil => rfl
  | cons a as ih => simp [charListLt, ih]

theorem charListLt_trans {a b c : List Char} (h₁ : charListLt a b = true)
    (h₂ : charListLt b c = true) : charListLt a c = true := by
  induction a generalizing b c with
  | nil =>
    cases b with
    | nil => simp [charListLt] at h₁
    | cons y ys =>
      cases c with
      | nil => simp [charListLt] at h₂
      | cons z zs => simp [charListLt]
  | cons x xs ih =>
    cases b with
    | nil => simp [charListLt] at h₁
    | cons y ys =>
      cases c with
      | nil => simp [charListLt] at h₂
      | cons z zs =>
        simp only [charListLt, Bool.or_eq_true, Bool.and_eq_true, decide_eq_true_eq,
          beq_iff_eq] at h₁ h₂ ⊢
        rcases h₁ with h₁ | ⟨h₁e, h₁r⟩ <;> rcases h₂ with h₂ | ⟨h₂e, h₂r⟩
        · exact Or.inl (Nat.lt_trans h₁ h₂)
        · exact Or.inl (h₂e ▸ h₁)
        · exact Or.inl (h₁e ▸ h₂)
        · exact Or.inr ⟨h₁e.trans h₂e, ih h₁r h₂r⟩

theorem charListLt_connex {a b : List Char} (h₁ : charListLt a b = false)
    (h₂ : charListLt b a = false) : a = b := by
  induction a generalizing b with
  | nil =>
    cases b with
    | nil => rfl
    | cons y ys => simp [charListLt] at h₁
  | cons x xs ih =>
    cases b with
    | nil => simp [charListLt] at h₂
    | cons y ys =>
      simp only [charListLt, Bool.or_eq_false_iff, Bool.and_eq_false_iff,
        decide_eq_false_iff_not, beq_eq_false_iff_ne, ne_eq] at h₁ h₂
      have hxy : x.toNat = y.toNat := by omega
      have : x = y := Char.ext (UInt32.ext hxy)
      subst this
      rcases h₁.2 with h | h
      · omega
      · rcases h₂.2 with h' | h'
        · omega
        · exact congrArg (x :: ·) (ih h h')

theorem charListLt_asymm {a b : List Char} (h : charListLt a b = true) :
    charListLt b a = false := by
  by_contra hc
  have hba : charListLt b a = true := by
    cases hcb : charListLt b a
    · exact absurd hcb hc
    · rfl
  have := charListLt_trans h hba
  rw [charListLt_irrefl] at this
  exact Bool.false_ne_true this

instance : IsTotal String strLe := by
  constructor
  intro a b
  unfold strLe strLeB strLtB
  cases h : charListLt b.data a.data
  · left; simp
  · right; simp [charListLt_asymm h]

instance : IsTrans String strLe := by
  constructor
  intro a b c hab hbc
  unfold strLe strLeB strLtB at hab hbc ⊢
  simp only [Bool.not_eq_true'] at hab hbc ⊢
  by_contra hc
  have hca : charListLt c.data a.data = true := by
    cases h : charListLt c.data a.data
    · exact absurd h hc
    · rfl
  cases hba : charListLt b.data c.data with
  | true => simp [charListLt_trans hba hca] at hab
  | false =>
    have hbceq : b.data = c.data := charListLt_connex hba hbc
    rw [← hbceq] at hca
    simp [hca] at hab

instance (tasks : List Task) : IsTotal (List String) (groupSortKeyLe tasks) := by
  constructor
  intro a b
  unfold groupSortKeyLe
  omega

instance (tasks : List Task) : IsTrans (List String) (groupSortKeyLe tasks) := by
  constructor
  intro a b c hab hbc
  unfold groupSortKeyLe at hab hbc ⊢
  omega

/-! ## Association-list (Python dict) lemmas -/

theorem lookup?_assocInsert_self {α : Type} (l : List (String × α)) (k : String) (v : α) :
    lookup? (assocInsert l k v) k = some v := by
  induction l with
  | nil => simp [assocInsert, lookup?]
  | cons p rest ih =>
    by_cases h : p.1 = k
    · simp [assocInsert, lookup?, h]
    · simp [assocInsert, lookup?, h, ih]

theorem lookup?_assocInsert_ne {α : Type} (l : List (String × α)) (k k' : String) (v : α)
    (h : k' ≠ k) : lookup? (assocInsert l k' v) k = lookup? l k := by
  induction l with
  | nil => simp [assocInsert, lookup?, h]
  | cons p rest ih =>
    by_cases hp : p.1 = k'
    · simp [assocInsert, lookup?, hp, h]
    · simp [assocInsert, lookup?, hp, ih]

/-! ## Python slicing lemmas -/

theorem pyStartswith_append_self (pre s : String) : pyStartswith (pre ++ s) pre = true := by
  unfold pyStartswith
  rw [String.data_append, List.take_left]
  simp

theorem pyDrop_append (pre s : String) : pyDrop (pre ++ s) pre.data.length = s := by
  unfold pyDrop
  rw [String.data_append, List.drop_left]

theorem pyStartswith_person_not_group (n : String) :
    pyStartswith ("person:" ++ n) "group:" = false := by
  unfold pyStartswith
  rw [String.data_append,
    List.take_append_of_le_length (by decide : "group:".data.length ≤ "person:".data.length)]
  decide

/-! ## C1: task color resolution -/

/-- C1: a task with no assignees has no color; otherwise the first group
(in the document's stored order) whose member set equals the assignee
set decides the color; otherwise the first assignee's configured color
is used if present; and a set that contains a member outside a group's
member list (in particular a strict superset) never matches that group. -/
theorem get_task_color_resolution (t : Task)
    (person_colors group_colors : List (String × String))
    (groups_dict : List (String × List String)) :
    (t.get_assignee_list = [] → get_task_color t person_colors group_colors groups_dict = none)
    ∧ (∀ gname mems,
        groups_dict.find? (fun g => pySetEq t.get_assignee_list g.2) = some (gname, mems) →
        t.get_assignee_list ≠ [] →
        get_task_color t person_colors group_colors groups_dict = lookup? group_colors gname)
    ∧ (∀ a0 rest, t.get_assignee_list = a0 :: rest →
        (∀ g ∈ groups_dict, pySetEq t.get_assignee_list g.2 = false) →
        get_task_color t person_colors group_colors groups_dict = lookup? person_colors a0)
    ∧ (∀ g ∈ groups_dict, (∃ x ∈ t.get_assignee_list, x ∉ g.2) →
        pySetEq t.get_assignee_list g.2 = false) := by
  refine ⟨?_, ?_, ?_, ?_⟩
  · intro h
    simp [get_task_color, h]
  · intro gname mems hfind hne
    simp only [get_task_color, if_neg hne]
    rw [hfind]
  · intro a0 rest hlist hall
    have hne : t.get_assignee_list ≠ [] := by simp [hlist]
    have hnone : groups_dict.find? (fun g => pySetEq t.get_assignee_list g.2) = none := by
      rw [List.find?_eq_none]
      intro g hg
      simp [hall g hg]
    simp only [get_task_color, if_neg hne]
    rw [hnone, hlist]
  · intro g hg hex
    obtain ⟨x, hx, hxn⟩ := hex
    by_contra hc
    have htrue : pySetEq t.get_assignee_list g.2 = true := by
      cases h : pySetEq t.get_assignee_list g.2
      · exact absurd h hc
      · rfl
    unfold pySetEq at htrue
    simp only [Bool.and_eq_true, List.all_eq_true] at htrue
    have := htrue.1 x hx
    simp only [List.contains_iff_exists_mem_beq, beq_iff_eq] at this
    obtain ⟨y, hy, rfl⟩ := this
    exact hxn hy

/-- Witness for C1: assignees `{A,B}` match the stored group `{B,A}` and
take its color even though `A` has an individual color; assignees
`{A,B,C}` are a strict superset, match nothing, and take `A`'s color. -/
theorem get_task_color_resolution_witness :
    get_task_color ⟨"t", "", "A,B", "", "", ""⟩ [("A", "Blue")] [("g1", "Red")]
      [("g1", ["B", "A"])] = some "Red"
    ∧ get_task_color ⟨"t", "", "A,B,C", "", "", ""⟩ [("A", "Blue")] [("g1", "Red")]
      [("g1", ["B", "A"])] = some "Blue" := by
  constructor
  · have h := (get_task_color_resolution ⟨"t", "", "A,B", "", "", ""⟩ [("A", "Blue")]
      [("g1", "Red")] [("g1", ["B", "A"])]).2.1 "g1" ["B", "A"] (by decide) (by decide)
    exact h.trans (by decide)
  · have h := (get_task_color_resolution ⟨"t", "", "A,B,C", "", "", ""⟩ [("A", "Blue")]
      [("g1", "Red")] [("g1", ["B", "A"])]).2.2.1 "A" ["B", "C"] (by decide) (by decide)
    exact h.trans (by decide)

/-! ## C10: a matching group without a configured color yields no color -/

/-- C10: when the first exact-set-matching group has no entry in the
group-color map, `get_task_color` returns `none` immediately; it never
falls through to the first assignee's individual color. -/
theorem matched_group_without_color_yields_none (t : Task)
    (person_colors group_colors : List (String × String))
    (groups_dict : List (String × List String)) (gname : String) (mems : List String)
    (hfind : groups_dict.find? (fun g => pySetEq t.get_assignee_list g.2) = some (gname, mems))
    (hcol : lookup? group_colors gname = none) :
    get_task_color t person_colors group_colors groups_dict = none := by
  by_cases hne : t.get_assignee_list = []
  · simp [get_task_color, hne]
  · simp only [get_task_color, if_neg hne]
    rw [hfind]
    exact hcol

/-- Witness for C10: the task's assignee set matches the colorless group
`g`, so the result is `none` although assignee `A` has a configured
color. -/
theorem matched_group_without_color_yields_none_witness :
    get_task_color ⟨"t", "", "A,B", "", "", ""⟩ [("A", "Blue")] []
      [("g", ["A", "B"])] = none := by
  exact matched_group_without_color_yields_none ⟨"t", "", "A,B", "", "", ""⟩ [("A", "Blue")]
    [] [("g", ["A", "B"])] "g" ["A", "B"] (by decide) (by decide)

/-! ## C2: the dated-milestone pass and tasks without any date -/

/-- A configuration with the single dated milestone `M1`, used to
exercise the dated-milestone emission pass. -/
def cfgDatedM1 : Config :=
  ⟨⟨"", "", ""⟩, ⟨[], [], []⟩, [("M1", "2026-01-02")], .records [], [], ⟨false, "", []⟩, []⟩

/-- C2 evaluated at the failing input: for a task under the dated
milestone `M1` with neither a start nor an end date, the dated pass of
`generate.py` emits only the section header — no instant directive for
the task — while the `main.py` copy of the same block emits
`"[T] happens at 2026-01-02"`. -/
theorem dated_pass_dateless_task_divergence :
    datedMilestonePass [⟨"T", "", "", "", "", "M1"⟩] cfgDatedM1 = ["-- M1 --", ""]
    ∧ datedPassTaskLinesMainPy (milestonesWithDates cfgDatedM1) "M1" [] [] []
        ⟨"T", "", "", "", "", "M1"⟩ = ["[T] happens at 2026-01-02"] := by
  constructor
  · decide
  · decide

/-! ## C9: legend soft references -/

/-- C9: a `"group:<id>"` legend item whose id is absent from the
uuid-to-name map renders the `"Unknown Group (<first 8 id characters>)"`
placeholder row rather than failing, and a `"person:<name>"` item
renders the display name when one is configured, else the raw name. -/
theorem legend_soft_references
    (uuid_to_name person_display_names : List (String × String))
    (gid gcolor pname pcolor : String)
    (h : lookup? uuid_to_name gid = none) :
    legendItemLine uuid_to_name person_display_names ("group:" ++ gid) gcolor
      = "|<back:" ++ gcolor ++ ">    </back>| "
          ++ escape_plantuml_text ("Unknown Group (" ++ pyTake gid 8 ++ ")") ++ " |"
    ∧ legendItemLine uuid_to_name person_display_names ("person:" ++ pname) pcolor
      = "|<back:" ++ pcolor ++ ">    </back>| "
          ++ escape_plantuml_text
              (match lookup? person_display_names pname with
               | some dn => dn
               | none => pname) ++ " |" := by
  constructor
  · have hdrop : pyDrop ("group:" ++ gid) 6 = gid := pyDrop_append "group:" gid
    simp only [legendItemLine, pyStartswith_append_self, if_true, hdrop, lookupD, h,
      Option.getD_none]
  · have hdrop : pyDrop ("person:" ++ pname) 7 = pname := pyDrop_append "person:" pname
    simp only [legendItemLine, pyStartswith_person_not_group, Bool.false_eq_true, if_false,
      pyStartswith_append_self, if_true, hdrop, lookupD]
    cases lookup? person_display_names pname <;> simp

/-- Witness for C9 at a concrete unknown group id and a configured
display name. -/
theorem legend_soft_references_witness :
    legendItemLine [] [("alice", "Alice A")] ("group:" ++ "deadbeef-0000-1111") "Red"
      = "|<back:Red>    </back>| Unknown Group (deadbeef) |"
    ∧ legendItemLine [] [("alice", "Alice A")] ("person:" ++ "alice") "Blue"
      = "|<back:Blue>    </back>| Alice A |" := by
  have h := legend_soft_references [] [("alice", "Alice A")] "deadbeef-0000-1111" "Red"
    "alice" "Blue" (by decide)
  exact ⟨h.1.trans (by decide), h.2.trans (by decide)⟩

/-! ## C3: palette exhaustion (counterexample and amended statement) -/

/-- Sixteen distinct assignee names, one more than the palette has
entries. -/
def sixteenAssignees : List String :=
  ["n01", "n02", "n03", "n04", "n05", "n06", "n07", "n08",
   "n09", "n10", "n11", "n12", "n13", "n14", "n15", "n16"]

/-- Counterexample to C3 as stated: the sixteenth individual (beyond the
15-entry palette) is assigned the generic fallback color `"LightGray"`,
not an empty color. -/
theorem assign_colors_person_overflow_not_empty :
    ((assign_colors sixteenAssignees [] (fun _ => "u")).1.map PersonRec.color).getD 15 ""
      = "LightGray"
    ∧ ((assign_colors sixteenAssignees [] (fun _ => "u")).1.map PersonRec.color).getD 15 ""
      ≠ "" := by
  constructor
  · decide
  · decide

/-! ## C4: the grouping key keeps duplicates (counterexample) -/

/-- Counterexample to C4 as stated: a task whose raw assignees string
lists `a` twice yields the grouping key `["a", "a"]`, which contains a
duplicate. -/
theorem assignee_tuple_keeps_duplicates :
    (Task.get_assignee_tuple ⟨"t", "", "a,a", "", "", ""⟩) = ["a", "a"]
    ∧ ¬ (Task.get_assignee_tuple ⟨"t", "", "a,a", "", "", ""⟩).Nodup := by
  constructor
  · decide
  · decide

/-! ## C5: group detection (counterexample and amended statement) -/

/-- Tasks in which `{A,B}` co-occurs three times, `{A,C}` once and
`{A,B,C}` twice. -/
def exampleTasksC5 : List Task :=
  [⟨"t1", "", "A,B", "", "", ""⟩, ⟨"t2", "", "A,B", "", "", ""⟩,
   ⟨"t3", "", "A,B", "", "", ""⟩, ⟨"t4", "", "A,C", "", "", ""⟩,
   ⟨"t5", "", "A,B,C", "", "", ""⟩, ⟨"t6", "", "A,B,C", "", "", ""⟩]

/-- Counterexample to C5 as stated: the sort is by occurrence count
descending first, so `{A,B}` (count 3) precedes `{A,B,C}` (count 2) and
the result is not `[{A,B,C}, {A,B}]`. -/
theorem detect_groups_example_order_refuted :
    detect_assignee_groups exampleTasksC5 2 ≠ [["A", "B", "C"], ["A", "B"]] := by
  decide

/-- C4 (amended): the grouping key is the stable ascending sort of the
assignee list; it is a permutation of that list — duplicates included —
so a raw string listing the same name twice keeps it twice. -/
theorem assignee_tuple_sorted_with_duplicates (t : Task) :
    t.get_assignee_tuple.Perm t.get_assignee_list
    ∧ t.get_assignee_tuple.Sorted strLe :=
  ⟨List.perm_insertionSort strLe _, List.sorted_insertionSort strLe _⟩

theorem mem_counterKeysAux (g : List String) (l : List Task) (acc : List (List String)) :
    g ∈ counterKeysAux l acc
      ↔ g ∈ acc ∨ ∃ t ∈ l, t.get_assignee_tuple = g ∧ 1 < g.length := by
  induction l generalizing acc with
  | nil => simp [counterKeysAux]
  | cons t rest ih =>
    simp only [counterKeysAux]
    by_cases h : 1 < t.get_assignee_tuple.length ∧ t.get_assignee_tuple ∉ acc
    · rw [if_pos h, ih]
      simp only [List.mem_append, List.mem_cons, List.not_mem_nil, or_false]
      constructor
      · rintro ((ha | rfl) | ⟨u, hu, hg, hl⟩)
        · exact Or.inl ha
        · exact Or.inr ⟨t, Or.inl rfl, rfl, h.1⟩
        · exact Or.inr ⟨u, Or.inr hu, hg, hl⟩
      · rintro (ha | ⟨u, hu | hu, hg, hl⟩)
        · exact Or.inl (Or.inl ha)
        · subst hu
          exact Or.inl (Or.inr hg.symm)
        · exact Or.inr ⟨u, hu, hg, hl⟩
    · rw [if_neg h, ih]
      push_neg at h
      simp only [List.mem_cons]
      constructor
      · rintro (ha | ⟨u, hu, hg, hl⟩)
        · exact Or.inl ha
        · exact Or.inr ⟨u, Or.inr hu, hg, hl⟩
      · rintro (ha | ⟨u, hu | hu, hg, hl⟩)
        · exact Or.inl ha
        · subst hu
          subst hg
          exact Or.inl (h hl)
        · exact Or.inr ⟨u, hu, hg, hl⟩

/-- C5 (amended): `detect_assignee_groups` returns exactly the
multi-assignee tuples occurring at least `minOcc` times, sorted by
occurrence count descending then tuple size descending; on the example
tasks (`{A,B}` three times, `{A,C}` once, `{A,B,C}` twice) with
`minOcc = 2` it returns `[{A,B}, {A,B,C}]` — the count-3 tuple first —
and excludes `{A,C}`. -/
theorem detect_groups_retention_and_order (tasks : List Task) (minOcc : Nat)
    (g : List String) :
    (g ∈ detect_assignee_groups tasks minOcc
      ↔ (∃ t ∈ tasks, t.get_assignee_tuple = g ∧ 1 < g.length)
          ∧ minOcc ≤ tupleCount tasks g)
    ∧ (detect_assignee_groups tasks minOcc).Sorted (groupSortKeyLe tasks)
    ∧ detect_assignee_groups exampleTasksC5 2 = [["A", "B"], ["A", "B", "C"]] := by
  refine ⟨?_, ?_, by decide⟩
  · unfold detect_assignee_groups
    rw [(List.perm_insertionSort _ _).mem_iff, List.mem_filter]
    unfold counterKeys
    rw [mem_counterKeysAux]
    simp only [List.not_mem_nil, false_or, decide_eq_true_eq]
  · exact List.sorted_insertionSort (groupSortKeyLe tasks) _

/-! ## C3 (amended): closed form of the color assignment -/

theorem assignPersonsAux_spec (l : List String) (i : Nat) :
    (assignPersonsAux l i).1.map PersonRec.name = l
    ∧ (assignPersonsAux l i).1.map PersonRec.color
        = (List.range l.length).map (fun j =>
            if i + j < COLOR_PALETTE.length then COLOR_PALETTE.getD (i + j) ""
            else "LightGray")
    ∧ (assignPersonsAux l i).2 = max i (min (i + l.length) COLOR_PALETTE.length) := by
  induction l generalizing i with
  | nil =>
    refine ⟨rfl, rfl, ?_⟩
    simp only [assignPersonsAux, List.length_nil]
    omega
  | cons a rest ih =>
    by_cases hi : i < COLOR_PALETTE.length
    · have h := ih (i + 1)
      refine ⟨?_, ?_, ?_⟩
      · simp [assignPersonsAux, hi, h.1]
      · simp only [assignPersonsAux, if_pos hi, List.map_cons, List.length_cons,
          List.range_succ_eq_map, h.2.1]
        congr 1
        · simp [hi]
        · rw [List.map_map]
          apply List.map_congr_left
          intro j _
          simp only [Function.comp_apply, Nat.succ_eq_add_one]
          have hj : i + 1 + j = i + (j + 1) := by omega
          rw [hj]
      · simp only [assignPersonsAux, if_pos hi, h.2.2, List.length_cons]
        omega
    · have h := ih i
      refine ⟨?_, ?_, ?_⟩
      · simp [assignPersonsAux, hi, h.1]
      · simp only [assignPersonsAux, if_neg hi, List.map_cons, List.length_cons,
          List.range_succ_eq_map, h.2.1]
        congr 1
        · simp [hi]
        · rw [List.map_map]
          apply List.map_congr_left
          intro j _
          simp only [Function.comp_apply, Nat.succ_eq_add_one]
          have h1 : ¬ (i + j < COLOR_PALETTE.length) := by omega
          have h2 : ¬ (i + (j + 1) < COLOR_PALETTE.length) := by omega
          simp [h1, h2]
      · simp only [assignPersonsAux, if_neg hi, h.2.2, List.length_cons]
        omega

theorem assignGroupsAux_spec (uuids : Nat → String) (gs : List (List String))
    (i k : Nat) :
    (assignGroupsAux uuids gs i k).map GroupRec.members = gs
    ∧ (assignGroupsAux uuids gs i k).map GroupRec.name = gs.map joinAmp
    ∧ (assignGroupsAux uuids gs i k).map GroupRec.color
        = (List.range gs.length).map (fun j =>
            if i + j < COLOR_PALETTE.length then COLOR_PALETTE.getD (i + j) "" else "") := by
  induction gs generalizing i k with
  | nil => exact ⟨rfl, rfl, rfl⟩
  | cons g rest ih =>
    by_cases hi : i < COLOR_PALETTE.length
    · have h := ih (i + 1) (k + 1)
      refine ⟨?_, ?_, ?_⟩
      · simp [assignGroupsAux, hi, h.1]
      · simp [assignGroupsAux, hi, h.2.1]
      · simp only [assignGroupsAux, if_pos hi, List.map_cons, List.length_cons,
          List.range_succ_eq_map, h.2.2]
        congr 1
        · simp [hi]
        · rw [List.map_map]
          apply List.map_congr_left
          intro j _
          simp only [Function.comp_apply, Nat.succ_eq_add_one]
          have hj : i + 1 + j = i + (j + 1) := by omega
          rw [hj]
    · have h := ih i (k + 1)
      refine ⟨?_, ?_, ?_⟩
      · simp [assignGroupsAux, hi, h.1]
      · simp [assignGroupsAux, hi, h.2.1]
      · simp only [assignGroupsAux, if_neg hi, List.map_cons, List.length_cons,
          List.range_succ_eq_map, h.2.2]
        congr 1
        · simp [hi]
        · rw [List.map_map]
          apply List.map_congr_left
          intro j _
          simp only [Function.comp_apply, Nat.succ_eq_add_one]
          have h1 : ¬ (i + j < COLOR_PALETTE.length) := by omega
          have h2 : ¬ (i + (j + 1) < COLOR_PALETTE.length) := by omega
          simp [h1, h2]

/-- C3 (amended): individuals are colored first in ascending name order,
consuming palette entries sequentially; an individual beyond the
palette's length receives the fixed fallback color `"LightGray"` (not an
empty color).  Groups continue from the same shared palette index, and a
group beyond the palette's length receives an empty color. -/
theorem assign_colors_palette_order (assignees : List String)
    (groups : List (List String)) (uuids : Nat → String) :
    ((assign_colors assignees groups uuids).1.map PersonRec.name
        = assignees.dedup.insertionSort strLe)
    ∧ ((assign_colors assignees groups uuids).1.map PersonRec.color
        = (List.range (assignees.dedup.insertionSort strLe).length).map (fun j =>
            if j < COLOR_PALETTE.length then COLOR_PALETTE.getD j "" else "LightGray"))
    ∧ ((assign_colors assignees groups uuids).2.map GroupRec.members = groups)
    ∧ ((assign_colors assignees groups uuids).2.map GroupRec.color
        = (List.range groups.length).map (fun j =>
            if min (assignees.dedup.insertionSort strLe).length COLOR_PALETTE.length + j
                < COLOR_PALETTE.length then
              COLOR_PALETTE.getD
                (min (assignees.dedup.insertionSort strLe).length COLOR_PALETTE.length + j) ""
            else "")) := by
  have hp := assignPersonsAux_spec (assignees.dedup.insertionSort strLe) 0
  have hidx : (assignPersonsAux (assignees.dedup.insertionSort strLe) 0).2
      = min (assignees.dedup.insertionSort strLe).length COLOR_PALETTE.length := by
    rw [hp.2.2]
    omega
  have hg := assignGroupsAux_spec uuids groups
    (min (assignees.dedup.insertionSort strLe).length COLOR_PALETTE.length) 0
  refine ⟨?_, ?_, ?_, ?_⟩
  · simpa [assign_colors] using hp.1
  · have := hp.2.1
    simp only [Nat.zero_add] at this
    simpa [assign_colors] using this
  · simpa [assign_colors, hidx] using hg.1
  · simpa [assign_colors, hidx] using hg.2.2

/-! ## C6: the three-level start-date fallback chain -/

theorem pyMinFold_mem (rest : List String) (a : String) :
    (rest.foldl (fun acc x => if strLtB x acc then x else acc) a) ∈ a :: rest := by
  induction rest generalizing a with
  | nil => simp
  | cons b rest ih =>
    simp only [List.foldl_cons]
    by_cases hb : strLtB b a = true
    · simp only [hb, if_true]
      rcases List.mem_cons.mp (ih b) with h | h
      · rw [h]
        exact List.mem_cons_of_mem a (List.mem_cons_self b rest)
      · exact List.mem_cons_of_mem a (List.mem_cons_of_mem b h)
    · simp only [Bool.not_eq_true] at hb
      simp only [hb, Bool.false_eq_true, if_false]
      rcases List.mem_cons.mp (ih a) with h | h
      · rw [h]
        exact List.mem_cons_self a (b :: rest)
      · exact List.mem_cons_of_mem a (List.mem_cons_of_mem b h)

theorem pyMinFold_min (rest : List String) (a : String) :
    ∀ x ∈ a :: rest,
      strLtB x (rest.foldl (fun acc y => if strLtB y acc then y else acc) a) = false := by
  induction rest generalizing a with
  | nil =>
    intro x hx
    rw [List.mem_singleton] at hx
    subst hx
    exact charListLt_irrefl x.data
  | cons b rest ih =>
    intro x hx
    simp only [List.foldl_cons]
    by_cases hb : strLtB b a = true
    · simp only [hb, if_true]
      rcases List.mem_cons.mp hx with rfl | hx'
      · by_contra hc
        have hxm : strLtB x (rest.foldl (fun acc y => if strLtB y acc then y else acc) b)
            = true := by
          cases hh : strLtB x (rest.foldl (fun acc y => if strLtB y acc then y else acc) b)
          · exact absurd hh hc
          · rfl
        have hbm := ih b b (List.mem_cons_self b rest)
        unfold strLtB at hb hxm hbm
        exact absurd (charListLt_trans hb hxm) (by simp [hbm])
      · exact ih b x hx'
    · simp only [Bool.not_eq_true] at hb
      simp only [hb, Bool.false_eq_true, if_false]
      rcases List.mem_cons.mp hx with rfl | hx'
      · exact ih x x (List.mem_cons_self x rest)
      · rcases List.mem_cons.mp hx' with rfl | hx''
        · by_contra hc
          have hxm : strLtB x (rest.foldl (fun acc y => if strLtB y acc then y else acc) a)
              = true := by
            cases hh : strLtB x (rest.foldl (fun acc y => if strLtB y acc then y else acc) a)
            · exact absurd hh hc
            · rfl
          have ham := ih a a (List.mem_cons_self a rest)
          unfold strLtB at hb hxm ham
          cases hab : charListLt a.data x.data with
          | true => exact absurd (charListLt_trans hab hxm) (by simp [ham])
          | false =>
            have hax : a.data = x.data := charListLt_connex hab hb
            rw [← hax] at hxm
            exact absurd hxm (by simp [ham])
        · exact ih a x (List.mem_cons_of_mem a hx'')

theorem pyMin_mem_min {l : List String} {m : String} (h : pyMin l = some m) :
    m ∈ l ∧ ∀ x ∈ l, strLtB x m = false := by
  cases l with
  | nil => exact absurd h (by simp [pyMin])
  | cons a rest =>
    unfold pyMin at h
    injection h with h
    subst h
    exact ⟨pyMinFold_mem rest a, pyMinFold_min rest a⟩

theorem pyMin_eq_none_iff (l : List String) : pyMin l = none ↔ l = [] := by
  cases l <;> simp [pyMin]

theorem pyMin_perm {l₁ l₂ : List String} (h : l₁.Perm l₂) : pyMin l₁ = pyMin l₂ := by
  cases h₁ : pyMin l₁ with
  | none =>
    rw [pyMin_eq_none_iff] at h₁
    subst h₁
    have h2 : l₂ = [] := by
      have := h.length_eq
      simpa using this.symm
    subst h2
    rfl
  | some m₁ =>
    cases h₂ : pyMin l₂ with
    | none =>
      rw [pyMin_eq_none_iff] at h₂
      subst h₂
      have h1 : l₁ = [] := by
        have := h.length_eq
        simpa using this
      subst h1
      exact absurd h₁ (by simp [pyMin])
    | some m₂ =>
      have s₁ := pyMin_mem_min h₁
      have s₂ := pyMin_mem_min h₂
      have hm₁ : m₁ ∈ l₂ := h.mem_iff.mp s₁.1
      have hm₂ : m₂ ∈ l₁ := h.mem_iff.mpr s₂.1
      have h12 := s₂.2 m₁ hm₁
      have h21 := s₁.2 m₂ hm₂
      unfold strLtB at h12 h21
      have : m₁.data = m₂.data := charListLt_connex h12 h21
      rw [String.ext this]

theorem taskDatesAux_eq (l : List Task) (acc : List String) :
    taskDatesAux l acc
      = acc ++ l.flatMap (fun t =>
          (if t.start_date ≠ "" then [t.start_date] else [])
            ++ (if t.end_date ≠ "" then [t.end_date] else [])) := by
  induction l generalizing acc with
  | nil => simp [taskDatesAux]
  | cons t rest ih => simp [taskDatesAux, ih, List.append_assoc]

/-- All start dates then all end dates present among the tasks, stated
from the spec's words ("the minimum over all start and end dates present
among the tasks") for comparison with the code's interleaved list. -/
def specAllTaskDates (tasks : List Task) : List String :=
  (tasks.map Task.start_date).filter (fun d => d ≠ "")
    ++ (tasks.map Task.end_date).filter (fun d => d ≠ "")

/-- The claim's three-level fallback chain, stated from the spec's words:
the explicit configured start date if non-empty; else the minimum task
date; else the minimum dated-milestone date; else nothing. -/
def specStartDateResolution (tasks : List Task) (cfg : Config) : Option String :=
  if cfg.project.start_date ≠ "" then some cfg.project.start_date
  else
    match pyMin (specAllTaskDates tasks) with
    | some d => some d
    | none => pyMin (milestoneDatesOnly cfg)

theorem taskDates_perm (l : List Task) : (taskDates l).Perm (specAllTaskDates l) := by
  unfold taskDates specAllTaskDates
  rw [taskDatesAux_eq]
  rw [List.nil_append]
  induction l with
  | nil => simp
  | cons t rest ih =>
    simp only [List.flatMap_cons, List.map_cons, List.filter_cons]
    by_cases hs : t.start_date = ""
    · by_cases he : t.end_date = ""
      · rw [if_neg (by simp [hs] : ¬ t.start_date ≠ ""),
            if_neg (by simp [he] : ¬ t.end_date ≠ ""),
            if_neg (by simp [hs] : ¬ (decide (t.start_date ≠ "") = true)),
            if_neg (by simp [he] : ¬ (decide (t.end_date ≠ "") = true))]
        simpa using ih
      · rw [if_neg (by simp [hs] : ¬ t.start_date ≠ ""),
            if_pos (by simp [he] : t.end_date ≠ ""),
            if_neg (by simp [hs] : ¬ (decide (t.start_date ≠ "") = true)),
            if_pos (by simp [he] : decide (t.end_date ≠ "") = true)]
        simpa using (ih.cons t.end_date).trans List.perm_middle.symm
    · by_cases he : t.end_date = ""
      · rw [if_pos (by simp [hs] : t.start_date ≠ ""),
            if_neg (by simp [he] : ¬ t.end_date ≠ ""),
            if_pos (by simp [hs] : decide (t.start_date ≠ "") = true),
            if_neg (by simp [he] : ¬ (decide (t.end_date ≠ "") = true))]
        simpa using ih.cons t.start_date
      · rw [if_pos (by simp [hs] : t.start_date ≠ ""),
            if_pos (by simp [he] : t.end_date ≠ ""),
            if_pos (by simp [hs] : decide (t.start_date ≠ "") = true),
            if_pos (by simp [he] : decide (t.end_date ≠ "") = true)]
        simpa using ((ih.cons t.end_date).trans List.perm_middle.symm).cons t.start_date

/-- C6: the diagram's start-date declaration follows the three-level
fallback chain in exactly the claimed order — the explicitly configured
project start date if non-empty, else the minimum over all start and end
dates present among the tasks, else the minimum date among milestones
that have a date — and is omitted entirely when all three levels are
empty. -/
theorem start_date_three_level_fallback (tasks : List Task) (cfg : Config) :
    startDateSection tasks cfg
      = match specStartDateResolution tasks cfg with
        | some d => ["Project starts " ++ d, ""]
        | none => [] := by
  unfold startDateSection specStartDateResolution
  by_cases h : cfg.project.start_date ≠ ""
  · rw [if_pos h, if_pos h]
  · rw [if_neg h, if_neg h]
    unfold find_earliest_task_date
    rw [pyMin_perm (taskDates_perm tasks)]

/-! ## C7: configuration round trip -/

theorem loadPersonsAux_lookup_of_notmem (entries : List PersonRec)
    (acc : List (String × String) × List (String × String)) (k : String)
    (h : ∀ p ∈ entries, p.name ≠ k) :
    lookup? (loadPersonsAux entries acc).1 k = lookup? acc.1 k
    ∧ lookup? (loadPersonsAux entries acc).2 k = lookup? acc.2 k := by
  induction entries generalizing acc with
  | nil => exact ⟨rfl, rfl⟩
  | cons p rest ih =>
    have hp : p.name ≠ k := h p (List.mem_cons_self p rest)
    have hrest : ∀ q ∈ rest, q.name ≠ k := fun q hq => h q (List.mem_cons_of_mem p hq)
    simp only [loadPersonsAux]
    by_cases h1 : p.name ≠ ""
    · rw [if_pos h1]
      refine ⟨(ih _ hrest).1.trans ?_, (ih _ hrest).2.trans ?_⟩
      · by_cases h2 : p.color ≠ ""
        · rw [if_pos h2]
          exact lookup?_assocInsert_ne _ _ _ _ hp
        · rw [if_neg h2]
      · by_cases h3 : p.display_name ≠ ""
        · rw [if_pos h3]
          exact lookup?_assocInsert_ne _ _ _ _ hp
        · rw [if_neg h3]
    · rw [if_neg h1]
      exact ih _ hrest

theorem loadPersonsAux_lookup (entries : List PersonRec)
    (acc : List (String × String) × List (String × String)) (p : PersonRec)
    (hmem : p ∈ entries)
    (hnames : (entries.map PersonRec.name).Nodup)
    (hne : ∀ q ∈ entries, q.name ≠ "")
    (h1 : lookup? acc.1 p.name = none) (h2 : lookup? acc.2 p.name = none) :
    lookup? (loadPersonsAux entries acc).1 p.name
        = (if p.color = "" then none else some p.color)
    ∧ lookup? (loadPersonsAux entries acc).2 p.name
        = (if p.display_name = "" then none else some p.display_name) := by
  induction entries generalizing acc with
  | nil => cases hmem
  | cons e rest ih =>
    simp only [List.map_cons, List.nodup_cons] at hnames
    rcases List.mem_cons.mp hmem with rfl | hmem'
    · have hrest : ∀ q ∈ rest, q.name ≠ p.name := by
        intro q hq hqe
        exact hnames.1 (hqe ▸ List.mem_map_of_mem PersonRec.name hq)
      simp only [loadPersonsAux]
      rw [if_pos (hne p (List.mem_cons_self p rest))]
      refine ⟨(loadPersonsAux_lookup_of_notmem rest _ p.name hrest).1.trans ?_,
        (loadPersonsAux_lookup_of_notmem rest _ p.name hrest).2.trans ?_⟩
      · by_cases hc : p.color = ""
        · rw [if_neg (by simp [hc] : ¬ p.color ≠ ""), if_pos hc]
          exact h1
        · rw [if_pos hc, if_neg hc]
          exact lookup?_assocInsert_self _ _ _
      · by_cases hd : p.display_name = ""
        · rw [if_neg (by simp [hd] : ¬ p.display_name ≠ ""), if_pos hd]
          exact h2
        · rw [if_pos hd, if_neg hd]
          exact lookup?_assocInsert_self _ _ _
    · have hen : e.name ≠ p.name := by
        intro he
        exact hnames.1 (he ▸ List.mem_map_of_mem PersonRec.name hmem')
      simp only [loadPersonsAux]
      rw [if_pos (hne e (List.mem_cons_self e rest))]
      refine ih _ hmem' hnames.2 (fun q hq => hne q (List.mem_cons_of_mem e hq)) ?_ ?_
      · by_cases hc : e.color ≠ ""
        · rw [if_pos hc, lookup?_assocInsert_ne _ _ _ _ hen]
          exact h1
        · rw [if_neg hc]
          exact h1
      · by_cases hd : e.display_name ≠ ""
        · rw [if_pos hd, lookup?_assocInsert_ne _ _ _ _ hen]
          exact h2
        · rw [if_neg hd]
          exact h2

theorem loadGroupsAux_lookup_of_notmem (gs : List GroupRec)
    (acc : List (String × List String) × List (String × String) × List (String × String))
    (k : String) (h : ∀ g ∈ gs, g.name ≠ k) :
    lookup? (loadGroupsAux gs acc).1 k = lookup? acc.1 k
    ∧ lookup? (loadGroupsAux gs acc).2.1 k = lookup? acc.2.1 k := by
  induction gs generalizing acc with
  | nil => exact ⟨rfl, rfl⟩
  | cons g rest ih =>
    have hg : g.name ≠ k := h g (List.mem_cons_self g rest)
    have hrest : ∀ q ∈ rest, q.name ≠ k := fun q hq => h q (List.mem_cons_of_mem g hq)
    simp only [loadGroupsAux]
    by_cases h1 : g.name ≠ "" ∧ g.members ≠ []
    · rw [if_pos h1]
      refine ⟨(ih _ hrest).1.trans ?_, (ih _ hrest).2.trans ?_⟩
      · exact lookup?_assocInsert_ne _ _ _ _ hg
      · by_cases h2 : g.color ≠ ""
        · rw [if_pos h2]
          exact lookup?_assocInsert_ne _ _ _ _ hg
        · rw [if_neg h2]
    · rw [if_neg h1]
      exact ih _ hrest

theorem loadGroupsAux_lookup (gs : List GroupRec)
    (acc : List (String × List String) × List (String × String) × List (String × String))
    (g : GroupRec) (hmem : g ∈ gs)
    (hnames : (gs.map GroupRec.name).Nodup)
    (hall : ∀ q ∈ gs, q.name ≠ "" ∧ q.members ≠ [])
    (h1 : lookup? acc.1 g.name = none) (h2 : lookup? acc.2.1 g.name = none) :
    lookup? (loadGroupsAux gs acc).1 g.name = some g.members
    ∧ lookup? (loadGroupsAux gs acc).2.1 g.name
        = (if g.color = "" then none else some g.color) := by
  induction gs generalizing acc with
  | nil => cases hmem
  | cons e rest ih =>
    simp only [List.map_cons, List.nodup_cons] at hnames
    rcases List.mem_cons.mp hmem with rfl | hmem'
    · have hrest : ∀ q ∈ rest, q.name ≠ g.name := by
        intro q hq hqe
        exact hnames.1 (hqe ▸ List.mem_map_of_mem GroupRec.name hq)
      simp only [loadGroupsAux]
      rw [if_pos (hall g (List.mem_cons_self g rest))]
      refine ⟨(loadGroupsAux_lookup_of_notmem rest _ g.name hrest).1.trans ?_,
        (loadGroupsAux_lookup_of_notmem rest _ g.name hrest).2.trans ?_⟩
      · exact lookup?_assocInsert_self _ _ _
      · by_cases hc : g.color = ""
        · rw [if_neg (by simp [hc] : ¬ g.color ≠ ""), if_pos hc]
          exact h2
        · rw [if_pos hc, if_neg hc]
          exact lookup?_assocInsert_self _ _ _
    · have hen : e.name ≠ g.name := by
        intro he
        exact hnames.1 (he ▸ List.mem_map_of_mem GroupRec.name hmem')
      simp only [loadGroupsAux]
      rw [if_pos (hall e (List.mem_cons_self e rest))]
      refine ih _ hmem' hnames.2 (fun q hq => hall q (List.mem_cons_of_mem e hq)) ?_ ?_
      · rw [lookup?_assocInsert_ne _ _ _ _ hen]
        exact h1
      · by_cases hc : e.color ≠ ""
        · rw [if_pos hc, lookup?_assocInsert_ne _ _ _ _ hen]
          exact h2
        · rw [if_neg hc]
          exact h2

/-- C7: building the configuration document with `create_toml_config`
and reading it straight back reproduces every person's color and display
name, every group's members and color, and the closed-weekday list
exactly (an empty stored color reads back as "no color"). -/
theorem config_roundtrip (tasks : List Task) (psd : Option String)
    (md : List (String × String)) (persons : List PersonRec) (groups : List GroupRec)
    (header footer legend_title : String)
    (hpn : ∀ p ∈ persons, p.name ≠ "")
    (hpd : (persons.map PersonRec.name).Nodup)
    (hgn : ∀ g ∈ groups, g.name ≠ "" ∧ g.members ≠ [])
    (hgd : (groups.map GroupRec.name).Nodup) :
    (∀ p ∈ persons,
      lookup? (load_persons_from_config
          (create_toml_config tasks psd md persons groups header footer legend_title)).1
          p.name
        = (if p.color = "" then none else some p.color)
      ∧ lookup? (load_persons_from_config
          (create_toml_config tasks psd md persons groups header footer legend_title)).2
          p.name
        = (if p.display_name = "" then none else some p.display_name))
    ∧ (∀ g ∈ groups,
      lookup? (load_groups_from_config
          (create_toml_config tasks psd md persons groups header footer legend_title)).1
          g.name
        = some g.members
      ∧ lookup? (load_groups_from_config
          (create_toml_config tasks psd md persons groups header footer legend_title)).2.1
          g.name
        = (if g.color = "" then none else some g.color))
    ∧ load_closed_days_from_config
        (create_toml_config tasks psd md persons groups header footer legend_title)
      = (["saturday", "sunday"], [], []) := by
  refine ⟨?_, ?_, rfl⟩
  · intro p hp
    exact loadPersonsAux_lookup persons ([], []) p hp hpd hpn rfl rfl
  · intro g hg
    exact loadGroupsAux_lookup groups ([], [], []) g hg hgd hgn rfl rfl

/-- Witness for C7 with one person and one group. -/
theorem config_roundtrip_witness :
    lookup? (load_persons_from_config (create_toml_config [] none []
        [⟨"alice", "Ali", "LightBlue"⟩] [⟨"u1", "A & B", ["A", "B"], "LightGreen"⟩]
        "" "" "")).1 "alice" = some "LightBlue"
    ∧ lookup? (load_groups_from_config (create_toml_config [] none []
        [⟨"alice", "Ali", "LightBlue"⟩] [⟨"u1", "A & B", ["A", "B"], "LightGreen"⟩]
        "" "" "")).1 "A & B" = some ["A", "B"] := by
  have h := config_roundtrip [] none [] [⟨"alice", "Ali", "LightBlue"⟩]
    [⟨"u1", "A & B", ["A", "B"], "LightGreen"⟩] "" "" ""
    (by decide) (by decide) (by decide) (by decide)
  refine ⟨?_, ?_⟩
  · exact (h.1 ⟨"alice", "Ali", "LightBlue"⟩ (by decide)).1.trans (by decide)
  · exact (h.2.1 ⟨"u1", "A & B", ["A", "B"], "LightGreen"⟩ (by decide)).1

/-! ## C8: idempotence of date normalization -/

theorem digitChar_toNat {n : Nat} (h : n < 10) : (digitChar n).toNat = 48 + n := by
  interval_cases n <;> decide

theorem isPySpace_digitChar {n : Nat} (h : n < 10) : isPySpace (digitChar n) = false := by
  interval_cases n <;> decide

theorem isAsciiDigit_digitChar {n : Nat} (h : n < 10) :
    isAsciiDigit (digitChar n) = true := by
  interval_cases n <;> decide

theorem formatYmd_data (y m d : Nat) :
    (formatYmd y m d).data
      = [digitChar (y / 1000 % 10), digitChar (y / 100 % 10), digitChar (y / 10 % 10),
         digitChar (y % 10), '-', digitChar (m / 10 % 10), digitChar (m % 10), '-',
         digitChar (d / 10 % 10), digitChar (d % 10)] := by
  simp [formatYmd, pad4, pad2, String.data_append]

theorem pyStripList_formatYmd (y m d : Nat) :
    pyStripList (formatYmd y m d).data = (formatYmd y m d).data := by
  have h1 : isPySpace (digitChar (y / 1000 % 10)) = false :=
    isPySpace_digitChar (Nat.mod_lt _ (by omega))
  have h2 : isPySpace (digitChar (d % 10)) = false :=
    isPySpace_digitChar (Nat.mod_lt _ (by omega))
  rw [formatYmd_data]
  unfold pyStripList
  simp [List.dropWhile_cons, h1, h2]

theorem daysInMonth_le (y m : Nat) : daysInMonth y m ≤ 31 := by
  unfold daysInMonth
  split
  · split <;> omega
  · split <;> omega

theorem digitsVal_two {a b : Nat} (ha : a < 10) (hb : b < 10) :
    digitsVal [digitChar a, digitChar b] = a * 10 + b := by
  simp only [digitsVal, List.foldl, digitChar_toNat ha, digitChar_toNat hb]
  omega

theorem digitsVal_four {a b c e : Nat} (ha : a < 10) (hb : b < 10) (hc : c < 10)
    (he : e < 10) :
    digitsVal [digitChar a, digitChar b, digitChar c, digitChar e]
      = ((a * 10 + b) * 10 + c) * 10 + e := by
  simp only [digitsVal, List.foldl, digitChar_toNat ha, digitChar_toNat hb,
    digitChar_toNat hc, digitChar_toNat he]
  omega

theorem parseYmdChars_format {y m d : Nat} (h : validYMD y m d = true) :
    parseYmdChars (formatYmd y m d).data = some (y, m, d) := by
  have hb : 1 ≤ y ∧ y ≤ 9999 ∧ 1 ≤ m ∧ m ≤ 12 ∧ 1 ≤ d ∧ d ≤ daysInMonth y m := by
    unfold validYMD at h
    simp only [Bool.and_eq_true, decide_eq_true_eq] at h
    tauto
  have hd31 : d ≤ 31 := le_trans hb.2.2.2.2.2 (daysInMonth_le y m)
  have g1 : isAsciiDigit (digitChar (y / 1000 % 10)) = true :=
    isAsciiDigit_digitChar (Nat.mod_lt _ (by omega))
  have g2 : isAsciiDigit (digitChar (y / 100 % 10)) = true :=
    isAsciiDigit_digitChar (Nat.mod_lt _ (by omega))
  have g3 : isAsciiDigit (digitChar (y / 10 % 10)) = true :=
    isAsciiDigit_digitChar (Nat.mod_lt _ (by omega))
  have g4 : isAsciiDigit (digitChar (y % 10)) = true :=
    isAsciiDigit_digitChar (Nat.mod_lt _ (by omega))
  have g5 : isAsciiDigit (digitChar (m / 10 % 10)) = true :=
    isAsciiDigit_digitChar (Nat.mod_lt _ (by omega))
  have g6 : isAsciiDigit (digitChar (m % 10)) = true :=
    isAsciiDigit_digitChar (Nat.mod_lt _ (by omega))
  have g7 : isAsciiDigit (digitChar (d / 10 % 10)) = true :=
    isAsciiDigit_digitChar (Nat.mod_lt _ (by omega))
  have g8 : isAsciiDigit (digitChar (d % 10)) = true :=
    isAsciiDigit_digitChar (Nat.mod_lt _ (by omega))
  have ghy : isAsciiDigit '-' = false := by decide
  rw [formatYmd_data]
  unfold parseYmdChars
  simp only [List.takeWhile_cons, List.dropWhile_cons, g1, g2, g3, g4, g5, g6, g7, g8, ghy,
    if_true, if_false, Bool.false_eq_true, List.takeWhile_nil, List.dropWhile_nil]
  rw [digitsVal_four (Nat.mod_lt _ (by omega)) (Nat.mod_lt _ (by omega))
    (Nat.mod_lt _ (by omega)) (Nat.mod_lt _ (by omega)),
    digitsVal_two (Nat.mod_lt _ (by omega)) (Nat.mod_lt _ (by omega)),
    digitsVal_two (Nat.mod_lt _ (by omega)) (Nat.mod_lt _ (by omega))]
  have hyv : ((y / 1000 % 10 * 10 + y / 100 % 10) * 10 + y / 10 % 10) * 10 + y % 10 = y := by
    omega
  have hmv : m / 10 % 10 * 10 + m % 10 = m := by omega
  have hdv : d / 10 % 10 * 10 + d % 10 = d := by omega
  rw [hyv, hmv, hdv]
  rw [if_pos (by simp), if_pos ⟨⟨hb.2.2.1, hb.2.2.2.1, hb.2.2.2.2.1, hd31⟩, h⟩]

theorem parseYmdChars_valid {cs : List Char} {y m d : Nat}
    (h : parseYmdChars cs = some (y, m, d)) : validYMD y m d = true := by
  unfold parseYmdChars at h
  dsimp only at h
  split at h
  · split at h
    · split at h
      · split at h
        · rename_i hcond
          injection h with h
          injection h with h1 h
          injection h with h2 h3
          subst h1
          subst h2
          subst h3
          exact hcond.2
        · exact absurd h (by simp)
      · exact absurd h (by simp)
    · exact absurd h (by simp)
  · exact absurd h (by simp)

theorem parseMonthNameChars_valid {names : List String} {cs : List Char} {y m d : Nat}
    (h : parseMonthNameChars names cs = some (y, m, d)) : validYMD y m d = true := by
  unfold parseMonthNameChars at h
  dsimp only at h
  split at h
  · exact absurd h (by simp)
  · split at h
    · exact absurd h (by simp)
    · split at h
      · split at h
        · exact absurd h (by simp)
        · split at h
          · split at h
            · rename_i hcond
              injection h with h
              injection h with h1 h
              injection h with h2 h3
              subst h1
              subst h2
              subst h3
              exact hcond.2
            · exact absurd h (by simp)
          · exact absurd h (by simp)
      · exact absurd h (by simp)

theorem formatYmd_ne_empty (y m d : Nat) : formatYmd y m d ≠ "" := by
  intro hc
  have := congrArg String.data hc
  rw [formatYmd_data] at this
  simp at this

theorem parse_date_shape {s c : String} (h : parse_date s = some c) :
    ∃ y m d, validYMD y m d = true ∧ c = formatYmd y m d := by
  unfold parse_date at h
  split at h
  · exact absurd h (by simp)
  · dsimp only at h
    cases h1 : parseYmdChars (pyStripList s.data) with
    | some t =>
      rw [h1] at h
      obtain ⟨y, m, d⟩ := t
      injection h with h
      exact ⟨y, m, d, parseYmdChars_valid h1, h.symm⟩
    | none =>
      rw [h1] at h
      cases h2 : parseMonthNameChars monthAbbrevNames (pyStripList s.data) with
      | some t =>
        rw [h2] at h
        obtain ⟨y, m, d⟩ := t
        injection h with h
        exact ⟨y, m, d, parseMonthNameChars_valid h2, h.symm⟩
      | none =>
        rw [h2] at h
        cases h3 : parseMonthNameChars monthFullNames (pyStripList s.data) with
        | some t =>
          rw [h3] at h
          obtain ⟨y, m, d⟩ := t
          injection h with h
          exact ⟨y, m, d, parseMonthNameChars_valid h3, h.symm⟩
        | none =>
          rw [h3] at h
          exact absurd h (by simp)

/-- C8: date normalization is idempotent — whenever `parse_date` succeeds
with canonical result `c`, parsing `c` again succeeds and returns `c`
unchanged (the canonical form re-enters through the `YYYY-MM-DD` branch
and formats back to itself). -/
theorem parse_date_idempotent (x c : String) (h : parse_date x = some c) :
    parse_date c = some c := by
  obtain ⟨y, m, d, hv, rfl⟩ := parse_date_shape h
  unfold parse_date
  rw [if_neg (formatYmd_ne_empty y m d)]
  dsimp only
  rw [pyStripList_formatYmd, parseYmdChars_format hv]

/-- Witness for C8: `"Jan 8, 2026"` normalizes to `"2026-01-08"`, which
re-normalizes to itself. -/
theorem parse_date_idempotent_witness :
    parse_date ("2026-01-08") = some ("2026-01-08") :=
  parse_date_idempotent ("Jan 8, 2026") ("2026-01-08") (by decide)

end Ganttinator
